import Mathlib

/-!
Shallow embedding of the truth_engine repository (a Community-Notes
ingestion / enrichment / vector-search pipeline) and proofs of the spec's
claims about it.

The embedding models:
* the `fact_checks` table (`src/init_db.py` plus the `tweet_format` column
  added by `src/update_schema.py`) as a list of `Row`s;
* the batch loader (`src/ingest_notes.py`): the pandas filter/merge/dedup
  pipeline and the `ON CONFLICT (tweet_id)` upsert of `insert_batch`;
* the enrichment loop (`src/enrich_pairs.py`): `get_null_rows`,
  `fetch_tweet_details`, `update_row` and the driver in `main`;
* the query services (`src/app.py` `/api/search` and
  `src/check_truth.py` `search_notes` / `display_results`).

External collaborators (the embedding model, the pgvector cosine-distance
operator, the HTTP network and the filesystem) are passed in as explicit
function parameters, never fixed: every theorem quantifies over them.
-/

namespace TruthEngine

/-- Embedding vectors (`vector(384)` columns); the width is irrelevant to
every claim, so vectors are plain rational lists. -/
abbrev Vec := List ℚ

/-- One row of the `fact_checks` table: `id SERIAL PRIMARY KEY`,
`tweet_id BIGINT UNIQUE NOT NULL`, `tweet_url TEXT`, `tweet_text TEXT`,
`tweet_vector vector(384)`, `note_text TEXT NOT NULL`,
`note_vector vector(384)`, plus the `tweet_format TEXT` column added by
`update_schema.py`.  (`created_at` plays no role in any claim.) -/
structure Row where
  id : Nat
  tweet_id : Int
  tweet_url : String
  tweet_text : Option String
  tweet_vector : Option Vec
  tweet_format : Option String
  note_text : String
  note_vector : Vec
  deriving Repr, DecidableEq

/-- The `fact_checks` table as a list of rows. -/
abbrev DB := List Row

/-! ### Enrichment loop (`src/enrich_pairs.py`) -/

/-- `BATCH_SIZE = 100` of `enrich_pairs.py`. -/
def BATCH_SIZE : Nat := 100

/-- The WHERE clause of `get_null_rows`:
`tweet_text IS NULL AND (tweet_format IS NULL OR tweet_format != 'Missing')`. -/
def eligible (r : Row) : Bool :=
  r.tweet_text.isNone && (r.tweet_format.isNone || decide (r.tweet_format ≠ some "Missing"))

/-- `get_null_rows` of `enrich_pairs.py`: `SELECT id, tweet_url FROM
fact_checks WHERE tweet_text IS NULL AND (tweet_format IS NULL OR
tweet_format != 'Missing') LIMIT limit`. -/
def get_null_rows (db : DB) (limit : Nat) : List (Nat × String) :=
  ((db.filter eligible).take limit).map fun r => (r.id, r.tweet_url)

/-- `update_row` of `enrich_pairs.py`: when the vector is `None` it marks the
row missing (`tweet_text = 'MISSING_OR_DELETED'`, `tweet_format = 'Missing'`,
`tweet_vector` untouched); otherwise it writes text, vector and format.
Both branches are `UPDATE ... WHERE id = row_id`. -/
def update_row (db : DB) (row_id : Nat) (tweet_text : String)
    (tweet_vector : Option Vec) (tweet_format : String) : DB :=
  match tweet_vector with
  | none => db.map fun r =>
      if r.id = row_id then
        { r with tweet_text := some "MISSING_OR_DELETED", tweet_format := some "Missing" }
      else r
  | some v => db.map fun r =>
      if r.id = row_id then
        { r with tweet_text := some tweet_text, tweet_vector := some v,
                 tweet_format := some tweet_format }
      else r

/-! ### A first claim: terminal-state exclusion -/

/-- Every pair returned by `get_null_rows` originates in a stored row that is
eligible: `tweet_text` null and `tweet_format` not `'Missing'`. -/
theorem get_null_rows_source {db : DB} {limit : Nat} {p : Nat × String}
    (hp : p ∈ get_null_rows db limit) :
    ∃ s ∈ db, s.id = p.1 ∧ s.tweet_url = p.2 ∧ eligible s = true := by
  unfold get_null_rows at hp
  obtain ⟨s, hs, rfl⟩ := List.mem_map.mp hp
  have hs' := List.mem_of_mem_take hs
  exact ⟨s, List.mem_of_mem_filter hs', rfl, rfl, List.of_mem_filter hs'⟩

/-- A row whose `tweet_format` is `'Missing'` is not eligible. -/
theorem eligible_ne_missing {r : Row} (h : r.tweet_format = some "Missing") :
    eligible r = false := by
  simp [eligible, h]

/-- C1: a record whose `tweet_format` equals the missing sentinel `'Missing'`
is never selected by the work-selection query: under the table's primary-key
constraint (no two rows share an `id`), `get_null_rows` never returns the
record's `id`, in any database state whatsoever. -/
theorem missing_never_selected {db : DB} {limit : Nat} {r : Row}
    (hnodup : (db.map Row.id).Nodup) (hr : r ∈ db)
    (hmiss : r.tweet_format = some "Missing") :
    ∀ p ∈ get_null_rows db limit, p.1 ≠ r.id := by
  intro p hp heq
  obtain ⟨s, hsdb, hsid, _, helig⟩ := get_null_rows_source hp
  have : s = r := List.inj_on_of_nodup_map hnodup hsdb hr (by rw [hsid, heq])
  rw [this] at helig
  rw [eligible_ne_missing hmiss] at helig
  exact Bool.false_ne_true helig

/-- A concrete two-row table used to instantiate C1: row 1 is already marked
`Missing`, row 2 is eligible for enrichment. -/
def c1Db : DB :=
  [⟨1, 10, "u1", some "MISSING_OR_DELETED", none, some "Missing", "n1", []⟩,
   ⟨2, 20, "u2", none, none, none, "n2", []⟩]

/-- The `Missing` row of `c1Db`. -/
def c1Row : Row := ⟨1, 10, "u1", some "MISSING_OR_DELETED", none, some "Missing", "n1", []⟩

/-- Concrete instantiation of C1: on `c1Db` the query never returns id 1. -/
theorem missing_never_selected_witness :
    (c1Db.map Row.id).Nodup ∧ c1Row ∈ c1Db ∧ c1Row.tweet_format = some "Missing" ∧
    ∀ p ∈ get_null_rows c1Db BATCH_SIZE, p.1 ≠ c1Row.id :=
  ⟨by decide, by decide, by decide,
   @missing_never_selected c1Db BATCH_SIZE c1Row (by decide) (by decide) (by decide)⟩

/-! ### Batch loader (`src/ingest_notes.py`) -/

/-- One prepared tuple of `batch_data` in `ingest_notes.main`:
`(tweet_id, tweet_url, note_text, note_vector)`. -/
structure NoteInput where
  tweet_id : Int
  tweet_url : String
  note_text : String
  note_vector : Vec
  deriving Repr, DecidableEq

/-- The id handed out by the `SERIAL` column for the next inserted row:
strictly larger than every id present, hence fresh. -/
def freshId (db : DB) : Nat := (db.map Row.id).foldr max 0 + 1

/-- Whether some stored row already has the given `tweet_id` (the
`ON CONFLICT (tweet_id)` test of the unique constraint). -/
def hasTid (db : DB) (x : Int) : Bool :=
  db.any (fun r => decide (r.tweet_id = x))

/-- The `DO UPDATE SET` action applied to one stored row: overwrite
`tweet_url`, `note_text` and `note_vector` when the row's `tweet_id`
conflicts with the incoming tuple's, leave the row alone otherwise. -/
def updNote (t : NoteInput) (r : Row) : Row :=
  if r.tweet_id = t.tweet_id then
    { r with tweet_url := t.tweet_url, note_text := t.note_text,
             note_vector := t.note_vector }
  else r

/-- The freshly inserted row for a non-conflicting tuple: `tweet_text`,
`tweet_vector` and `tweet_format` start out null. -/
def newRow (db : DB) (t : NoteInput) : Row :=
  { id := freshId db, tweet_id := t.tweet_id, tweet_url := t.tweet_url,
    tweet_text := none, tweet_vector := none, tweet_format := none,
    note_text := t.note_text, note_vector := t.note_vector }

/-- One row of the `execute_values` upsert of `insert_batch`:
`INSERT INTO fact_checks (tweet_id, tweet_url, note_text, note_vector)
VALUES ... ON CONFLICT (tweet_id) DO UPDATE SET tweet_url = EXCLUDED.tweet_url,
note_text = EXCLUDED.note_text, note_vector = EXCLUDED.note_vector`. -/
def upsert (db : DB) (t : NoteInput) : DB :=
  if hasTid db t.tweet_id then db.map (updNote t) else db ++ [newRow db t]

/-- `insert_batch` of `ingest_notes.py`: the `VALUES` rows are processed in
order, each one behaving as the upsert above. -/
def insert_batch (db : DB) (batch : List NoteInput) : DB :=
  batch.foldl upsert db

theorem upsert_eq_of_hasTid {db : DB} {t : NoteInput}
    (h : hasTid db t.tweet_id = true) : upsert db t = db.map (updNote t) := by
  unfold upsert
  rw [if_pos h]

theorem upsert_eq_of_not_hasTid {db : DB} {t : NoteInput}
    (h : hasTid db t.tweet_id = false) : upsert db t = db ++ [newRow db t] := by
  unfold upsert
  rw [if_neg (by rw [h]; exact Bool.false_ne_true)]

/-- Mapping a `tweet_id`-preserving function over the table does not change
which tweet ids are present. -/
theorem hasTid_map {db : DB} {g : Row → Row}
    (hg : ∀ r, (g r).tweet_id = r.tweet_id) (x : Int) :
    hasTid (db.map g) x = hasTid db x := by
  induction db with
  | nil => rfl
  | cons r rs ih =>
      simp only [hasTid, List.map_cons, List.any_cons] at ih ⊢
      rw [hg, ih]

/-- `updNote` preserves every row's `tweet_id`. -/
theorem updNote_tid (t : NoteInput) (r : Row) :
    (updNote t r).tweet_id = r.tweet_id := by
  unfold updNote
  by_cases h : r.tweet_id = t.tweet_id <;> simp [h]

/-- `updNote` preserves every row's `id`. -/
theorem updNote_id (t : NoteInput) (r : Row) : (updNote t r).id = r.id := by
  unfold updNote
  by_cases h : r.tweet_id = t.tweet_id <;> simp [h]

/-- `updNote` is a no-op on rows with a different `tweet_id`. -/
theorem updNote_skip {t : NoteInput} {r : Row}
    (h : r.tweet_id ≠ t.tweet_id) : updNote t r = r := by
  unfold updNote
  rw [if_neg h]

/-- Applying `updNote` for the same tuple twice equals applying it once. -/
theorem updNote_idem (t : NoteInput) (r : Row) :
    updNote t (updNote t r) = updNote t r := by
  unfold updNote
  by_cases h : r.tweet_id = t.tweet_id <;> simp [h]

/-- `updNote`s for tuples with distinct tweet ids commute. -/
theorem updNote_comm {s t : NoteInput} (hst : s.tweet_id ≠ t.tweet_id)
    (r : Row) : updNote s (updNote t r) = updNote t (updNote s r) := by
  by_cases h1 : r.tweet_id = t.tweet_id
  · have h2 : r.tweet_id ≠ s.tweet_id := fun h => hst (h.symm.trans h1)
    rw [updNote_skip h2, updNote_skip (t := s) (by rw [updNote_tid]; exact h2)]
  · rw [updNote_skip h1, updNote_skip (t := t) (by rw [updNote_tid]; exact h1)]

/-- After an upsert of `t`, a row with `t`'s tweet id is present. -/
theorem hasTid_upsert_self (db : DB) (t : NoteInput) :
    hasTid (upsert db t) t.tweet_id = true := by
  by_cases h : hasTid db t.tweet_id = true
  · rw [upsert_eq_of_hasTid h, hasTid_map (updNote_tid _)]; exact h
  · rw [upsert_eq_of_not_hasTid (Bool.eq_false_iff.mpr h)]
    simp [hasTid, newRow]

/-- Upserting preserves tid-presence of any tweet id. -/
theorem hasTid_upsert_mono {db : DB} {x : Int} (t : NoteInput)
    (h : hasTid db x = true) : hasTid (upsert db t) x = true := by
  by_cases ht : hasTid db t.tweet_id = true
  · rw [upsert_eq_of_hasTid ht, hasTid_map (updNote_tid _)]; exact h
  · rw [upsert_eq_of_not_hasTid (Bool.eq_false_iff.mpr ht)]
    simp only [hasTid, List.any_eq_true, decide_eq_true_eq] at h ⊢
    obtain ⟨r, hr, hrx⟩ := h
    exact ⟨r, List.mem_append_left _ hr, hrx⟩

/-- `insert_batch` preserves tid-presence. -/
theorem hasTid_insert_batch_mono {db : DB} {x : Int} (batch : List NoteInput)
    (h : hasTid db x = true) : hasTid (insert_batch db batch) x = true := by
  induction batch generalizing db with
  | nil => exact h
  | cons t ts ih => exact ih (hasTid_upsert_mono _ h)

/-- Mapping an `id`-preserving function leaves the id column unchanged. -/
theorem ids_map_of_preserves {g : Row → Row} (hg : ∀ r, (g r).id = r.id)
    (db : DB) : (db.map g).map Row.id = db.map Row.id := by
  rw [List.map_map]
  exact List.map_congr_left fun r _ => hg r

/-- `freshId` only depends on the stored ids. -/
theorem freshId_congr {d d' : DB} (h : d.map Row.id = d'.map Row.id) :
    freshId d = freshId d' := by
  unfold freshId
  rw [h]

/-- Upserting the same tuple twice in a row is the same as doing it once. -/
theorem upsert_idem (db : DB) (t : NoteInput) :
    upsert (upsert db t) t = upsert db t := by
  rw [upsert_eq_of_hasTid (hasTid_upsert_self db t)]
  by_cases h : hasTid db t.tweet_id = true
  · rw [upsert_eq_of_hasTid h, List.map_map]
    exact List.map_congr_left fun r _ => updNote_idem t r
  · rw [upsert_eq_of_not_hasTid (Bool.eq_false_iff.mpr h)]
    simp only [hasTid, List.any_eq_true, decide_eq_true_eq] at h
    push_neg at h
    rw [List.map_append]
    congr 1
    · have h1 : db.map (updNote t) = db.map id :=
        List.map_congr_left fun r hr => updNote_skip (h r hr)
      rw [h1, List.map_id]
    · simp [updNote, newRow]

/-- Upserts of tuples with distinct tweet ids commute, provided the first
tuple's tweet id is already present (so neither order inserts it). -/
theorem upsert_comm {db : DB} {s t : NoteInput}
    (hst : s.tweet_id ≠ t.tweet_id) (ht : hasTid db t.tweet_id = true) :
    upsert (upsert db t) s = upsert (upsert db s) t := by
  by_cases hs : hasTid db s.tweet_id = true
  · rw [upsert_eq_of_hasTid ht, upsert_eq_of_hasTid hs,
      upsert_eq_of_hasTid (by rw [hasTid_map (updNote_tid _)]; exact hs),
      upsert_eq_of_hasTid (by rw [hasTid_map (updNote_tid _)]; exact ht),
      List.map_map, List.map_map]
    exact List.map_congr_left fun r _ => updNote_comm hst r
  · have hs' : hasTid db s.tweet_id = false := Bool.eq_false_iff.mpr hs
    rw [upsert_eq_of_hasTid ht,
      upsert_eq_of_not_hasTid (by rw [hasTid_map (updNote_tid _)]; exact hs'),
      upsert_eq_of_not_hasTid hs',
      upsert_eq_of_hasTid (by
        simp only [hasTid, List.any_append, List.any_cons, List.any_nil,
          Bool.or_false, Bool.or_eq_true, decide_eq_true_eq]
        exact Or.inl (by simpa [hasTid] using ht)),
      List.map_append]
    congr 1
    simp only [List.map_cons, List.map_nil]
    rw [updNote_skip (show (newRow db s).tweet_id ≠ t.tweet_id from hst)]
    simp only [newRow, freshId_congr (ids_map_of_preserves (updNote_id t) db)]

/-- A tuple whose tweet id is already stored and does not occur later in the
batch can be upserted before or after the rest of the batch. -/
theorem upsert_insert_batch_comm {t : NoteInput} (ts : List NoteInput) :
    ∀ db : DB, hasTid db t.tweet_id = true →
      t.tweet_id ∉ ts.map NoteInput.tweet_id →
      upsert (insert_batch db ts) t = insert_batch (upsert db t) ts := by
  induction ts with
  | nil => intro db _ _; rfl
  | cons s ts ih =>
      intro db ht hmem
      simp only [List.map_cons, List.mem_cons] at hmem
      push_neg at hmem
      obtain ⟨hts, hmem⟩ := hmem
      show upsert (insert_batch (upsert db s) ts) t =
        insert_batch (upsert (upsert db t) s) ts
      rw [ih (upsert db s) (hasTid_upsert_mono s ht) hmem,
        upsert_comm (fun h => hts h.symm) ht]

/-- C2: running the batch loader twice on identical deduplicated input
(pairwise distinct `tweet_id`s, as guaranteed by the `drop_duplicates`
step) leaves the table exactly as running it once: the second run only
re-updates each row to the values it already has, so row count and row
contents are unchanged. -/
theorem insert_batch_idempotent (db : DB) (batch : List NoteInput)
    (h : (batch.map NoteInput.tweet_id).Nodup) :
    insert_batch (insert_batch db batch) batch = insert_batch db batch := by
  induction batch generalizing db with
  | nil => rfl
  | cons t ts ih =>
      rw [List.map_cons, List.nodup_cons] at h
      obtain ⟨hts, hnd⟩ := h
      show insert_batch (upsert (insert_batch (upsert db t) ts) t) ts =
        insert_batch (upsert db t) ts
      rw [upsert_insert_batch_comm ts (upsert db t) (hasTid_upsert_self db t) hts,
        upsert_idem]
      exact ih (upsert db t) hnd

/-- A concrete deduplicated two-tuple batch for C2. -/
def c2Batch : List NoteInput :=
  [⟨42, "https://twitter.com/i/web/status/42", "note a", [1]⟩,
   ⟨7, "https://twitter.com/i/web/status/7", "note b", [2]⟩]

/-- Concrete instantiation of C2 on an initially nonempty table. -/
theorem insert_batch_idempotent_witness :
    (c2Batch.map NoteInput.tweet_id).Nodup ∧
    insert_batch (insert_batch c1Db c2Batch) c2Batch = insert_batch c1Db c2Batch :=
  ⟨by decide, insert_batch_idempotent c1Db c2Batch (by decide)⟩

/-! ### Fetching and enriching one record (`src/enrich_pairs.py`) -/

/-- The JSON body of a successful syndication-API answer, as far as
`fetch_tweet_details` inspects it: the `"text"` field (defaulted to `""` by
`data.get("text", "")`), whether a `"video"` key is present, and the value
of the `"photos"` key when present. -/
structure ApiResponse where
  text : String
  has_video : Bool
  photos : Option (List Unit)
  deriving Repr, DecidableEq

/-- Outcome of the HTTP GET in `fetch_tweet_details`: a 404, a successful
JSON answer, or any other failure (non-2xx status raised by
`raise_for_status`, timeout, or exception). -/
inductive HttpResult where
  | notFound
  | ok (resp : ApiResponse)
  | failed
  deriving Repr, DecidableEq

/-- The substring after the last `/` of the URL, as a character list:
Python's `tweet_url.split("/")[-1]` for the single-character separator. -/
def lastSlashSegment (tweet_url : String) : List Char :=
  tweet_url.toList.foldl (fun acc c => if c = '/' then [] else acc ++ [c]) []

/-- The id-extraction of `fetch_tweet_details`:
`tweet_url.split("/")[-1].split("?")[0]`, then Python's `str.isdigit`
(nonempty, all digits). -/
def extractTweetId (tweet_url : String) : Option String :=
  let tid := (lastSlashSegment tweet_url).takeWhile (fun c => c ≠ '?')
  if tid ≠ [] ∧ tid.all Char.isDigit then some (String.mk tid) else none

/-- The format classification of `fetch_tweet_details`: a `"video"` key wins,
then a nonempty `"photos"` list, else `"Text"`. -/
def classifyFormat (resp : ApiResponse) : String :=
  if resp.has_video then "Video"
  else match resp.photos with
    | some ps => if ps.length > 0 then "Photo" else "Text"
    | none => "Text"

/-- `fetch_tweet_details` of `enrich_pairs.py`, with the network passed in as
`http` (tweet id ↦ outcome): a non-numeric URL yields `none`; a 404 yields
`("MISSING", "Unknown")`; any other failure yields `none`; success yields
the response's text with the classified format. -/
def fetch_tweet_details (http : String → HttpResult) (tweet_url : String) :
    Option (String × String) :=
  match extractTweetId tweet_url with
  | none => none
  | some tid =>
    match http tid with
    | .notFound => some ("MISSING", "Unknown")
    | .failed => none
    | .ok resp => some (resp.text, classifyFormat resp)

/-- The per-record body of `enrich_pairs.main`: fetch; on `None` skip; on
text `"MISSING"` call `update_row(..., "MISSING", None, "Missing")`; else
embed the text and call `update_row` with text, vector and format.  `encode`
is the external embedding model. -/
def processRow (encode : String → Vec) (http : String → HttpResult)
    (db : DB) (row_id : Nat) (tweet_url : String) : DB :=
  match fetch_tweet_details http tweet_url with
  | none => db
  | some (tweet_text, tweet_format) =>
      if tweet_text = "MISSING" then
        update_row db row_id "MISSING" none "Missing"
      else
        update_row db row_id tweet_text (some (encode tweet_text)) tweet_format

/-- One pass of the `while True` loop of `enrich_pairs.main`: select up to
`BATCH_SIZE` eligible rows once, then process each in order (each
`update_row` is committed immediately, so later rows see earlier writes). -/
def enrichPass (encode : String → Vec) (http : String → HttpResult)
    (db : DB) : DB :=
  (get_null_rows db BATCH_SIZE).foldl (fun d p => processRow encode http d p.1 p.2) db

/-- Claimed success behavior of C3, formalized from the spec's words: on a
successful response the record is always updated with the response's text,
its embedding, and the classified format. -/
def c3ClaimedUpdate (encode : String → Vec) (resp : ApiResponse)
    (db : DB) (row_id : Nat) : DB :=
  update_row db row_id resp.text (some (encode resp.text)) (classifyFormat resp)

/-- Fixture embedding model for counterexamples and witnesses. -/
def enc0 : String → Vec := fun s => [mkRat s.length 1]

/-- Fixture network for the C3 counterexample: every tweet id answers
successfully with body text exactly `"MISSING"`. -/
def http3 : String → HttpResult := fun _ => .ok ⟨"MISSING", false, none⟩

/-- Fixture one-row table with an eligible row (id 1, numeric URL). -/
def c3Db : DB := [⟨1, 5, "https://twitter.com/i/web/status/5", none, none, none, "n", []⟩]

/-- C3 counterexample: the API responds successfully (no 404, no exception)
with text `"MISSING"`, yet the record is not updated with the response's
text and its embedding: `main` routes any success whose text is exactly
`"MISSING"` into the missing branch, storing `'MISSING_OR_DELETED'` with
format `'Missing'` and no vector. -/
theorem success_update_cex :
    http3 "5" = .ok ⟨"MISSING", false, none⟩ ∧
    processRow enc0 http3 c3Db 1 "https://twitter.com/i/web/status/5" =
      [⟨1, 5, "https://twitter.com/i/web/status/5", some "MISSING_OR_DELETED",
        none, some "Missing", "n", []⟩] ∧
    processRow enc0 http3 c3Db 1 "https://twitter.com/i/web/status/5" ≠
      c3ClaimedUpdate enc0 ⟨"MISSING", false, none⟩ c3Db 1 := by
  refine ⟨rfl, by decide, ?_⟩
  decide

/-- C3 as amended: on a successful response whose text is not the in-band
sentinel `"MISSING"`, the record is updated with the response's text, the
embedding of that text, and the format classified as `Video` if the
response has a `"video"` key, else `Photo` if it has a nonempty `"photos"`
list, else `Text`. -/
theorem success_updates_row (encode : String → Vec) (http : String → HttpResult)
    (db : DB) (row_id : Nat) (url tid : String) (resp : ApiResponse)
    (hid : extractTweetId url = some tid) (hok : http tid = .ok resp)
    (hnm : resp.text ≠ "MISSING") :
    processRow encode http db row_id url =
      db.map (fun r =>
        if r.id = row_id then
          { r with tweet_text := some resp.text,
                   tweet_vector := some (encode resp.text),
                   tweet_format := some (classifyFormat resp) }
        else r) ∧
    classifyFormat resp =
      (if resp.has_video then "Video"
       else if (resp.photos.getD []).length > 0 then "Photo" else "Text") := by
  constructor
  · have hf : fetch_tweet_details http url = some (resp.text, classifyFormat resp) := by
      simp only [fetch_tweet_details, hid, hok]
    simp only [processRow, hf]
    rw [if_neg hnm]
    rfl
  · unfold classifyFormat
    cases h : resp.photos <;> simp [h]

/-- Concrete instantiation of the amended C3: a successful `"hello"` answer
with one photo is written back as a `Photo` record with its embedding. -/
theorem success_updates_row_witness :
    extractTweetId "https://twitter.com/i/web/status/5" = some "5" ∧
    (fun _ : String => HttpResult.ok ⟨"hello", false, some [()]⟩) "5" =
      .ok ⟨"hello", false, some [()]⟩ ∧
    ("hello" : String) ≠ "MISSING" ∧
    (processRow enc0 (fun _ => .ok ⟨"hello", false, some [()]⟩) c3Db 1
        "https://twitter.com/i/web/status/5" =
      c3Db.map (fun r =>
        if r.id = 1 then
          { r with tweet_text := some "hello",
                   tweet_vector := some (enc0 "hello"),
                   tweet_format := some (classifyFormat ⟨"hello", false, some [()]⟩) }
        else r) ∧
     classifyFormat ⟨"hello", false, some [()]⟩ =
       (if (false : Bool) then "Video"
        else if ((some [()] : Option (List Unit)).getD []).length > 0
          then "Photo" else "Text")) :=
  ⟨by decide, rfl, by decide,
   success_updates_row enc0 (fun _ => .ok ⟨"hello", false, some [()]⟩) c3Db 1
     "https://twitter.com/i/web/status/5" "5" ⟨"hello", false, some [()]⟩
     (by decide) rfl (by decide)⟩

/-- C4: when the content API returns HTTP 404 for the record's tweet id, the
record is marked permanently missing: `tweet_text` becomes the sentinel
`'MISSING_OR_DELETED'`, `tweet_format` becomes `'Missing'`, and no vector is
written — every row's `tweet_vector` is exactly what it was before, so a
null vector stays null. -/
theorem notFound_marks_missing (encode : String → Vec) (http : String → HttpResult)
    (db : DB) (row_id : Nat) (url tid : String)
    (hid : extractTweetId url = some tid) (h404 : http tid = .notFound) :
    processRow encode http db row_id url =
      db.map (fun r =>
        if r.id = row_id then
          { r with tweet_text := some "MISSING_OR_DELETED",
                   tweet_format := some "Missing" }
        else r) ∧
    (processRow encode http db row_id url).map Row.tweet_vector =
      db.map Row.tweet_vector := by
  have h1 : processRow encode http db row_id url =
      db.map (fun r =>
        if r.id = row_id then
          { r with tweet_text := some "MISSING_OR_DELETED",
                   tweet_format := some "Missing" }
        else r) := by
    have hf : fetch_tweet_details http url = some ("MISSING", "Unknown") := by
      simp only [fetch_tweet_details, hid, h404]
    simp only [processRow, hf]
    rw [if_pos trivial]
    rfl
  refine ⟨h1, ?_⟩
  rw [h1, List.map_map]
  apply List.map_congr_left
  intro r _
  by_cases h : r.id = row_id <;> simp [h, Function.comp]

/-- Concrete instantiation of C4: a 404 on the eligible row of `c3Db` leaves
its null `tweet_vector` null and stores the sentinels. -/
theorem notFound_marks_missing_witness :
    extractTweetId "https://twitter.com/i/web/status/5" = some "5" ∧
    (fun _ : String => HttpResult.notFound) "5" = .notFound ∧
    (processRow enc0 (fun _ => .notFound) c3Db 1 "https://twitter.com/i/web/status/5" =
      c3Db.map (fun r =>
        if r.id = 1 then
          { r with tweet_text := some "MISSING_OR_DELETED",
                   tweet_format := some "Missing" }
        else r) ∧
     (processRow enc0 (fun _ => .notFound) c3Db 1
        "https://twitter.com/i/web/status/5").map Row.tweet_vector =
       c3Db.map Row.tweet_vector) :=
  ⟨by decide, rfl,
   notFound_marks_missing enc0 (fun _ => .notFound) c3Db 1
     "https://twitter.com/i/web/status/5" "5" (by decide) rfl⟩

/-! ### Filter and dedup (`src/ingest_notes.py`, `load_and_filter_notes` and
the `drop_duplicates` step of `main`) -/

/-- One row of the notes TSV, as far as the pipeline reads it. -/
structure Note where
  noteId : Int
  tweetId : Int
  summary : Option String
  deriving Repr, DecidableEq

/-- One row of the note-status-history TSV. -/
structure StatusRec where
  noteId : Int
  currentStatus : String
  deriving Repr, DecidableEq

/-- `load_and_filter_notes` of `ingest_notes.py`: filter the status table to
`currentStatus == 'CURRENTLY_RATED_HELPFUL'` and inner-merge the notes on
`noteId`.  A pandas inner merge keeps left order and emits one copy of a
note per matching status row. -/
def load_and_filter_notes (notes : List Note) (status : List StatusRec) : List Note :=
  let helpful_status := status.filter fun s => decide (s.currentStatus = "CURRENTLY_RATED_HELPFUL")
  notes.flatMap fun n => (helpful_status.filter fun s => decide (s.noteId = n.noteId)).map fun _ => n

/-- `drop_duplicates(subset=['tweetId'], keep='first')` of `ingest_notes.main`:
walk the rows in order, keeping a row only when its `tweetId` has not been
seen yet. -/
def drop_duplicates_by_tweetId (seen : List Int) : List Note → List Note
  | [] => []
  | n :: ns =>
      if n.tweetId ∈ seen then drop_duplicates_by_tweetId seen ns
      else n :: drop_duplicates_by_tweetId (n.tweetId :: seen) ns

/-- Membership characterization of the inner merge. -/
theorem mem_load_and_filter {notes : List Note} {status : List StatusRec} {n : Note} :
    n ∈ load_and_filter_notes notes status ↔
      n ∈ notes ∧ ∃ s ∈ status,
        s.currentStatus = "CURRENTLY_RATED_HELPFUL" ∧ s.noteId = n.noteId := by
  simp only [load_and_filter_notes, List.mem_flatMap, List.mem_map, List.mem_filter,
    decide_eq_true_eq]
  constructor
  · rintro ⟨m, hm, s, ⟨⟨hs, hstat⟩, hsid⟩, rfl⟩
    exact ⟨hm, s, hs, hstat, hsid⟩
  · rintro ⟨hn, s, hs, hstat, hsid⟩
    exact ⟨n, hn, s, ⟨⟨hs, hstat⟩, hsid⟩, rfl⟩

/-- A row surviving dedup comes from the input and its id was unseen. -/
theorem mem_drop_duplicates {l : List Note} {seen : List Int} {m : Note}
    (h : m ∈ drop_duplicates_by_tweetId seen l) :
    m ∈ l ∧ m.tweetId ∉ seen := by
  induction l generalizing seen with
  | nil => cases h
  | cons n ns ih =>
      by_cases hn : n.tweetId ∈ seen
      · rw [drop_duplicates_by_tweetId, if_pos hn] at h
        obtain ⟨h1, h2⟩ := ih h
        exact ⟨List.mem_cons_of_mem _ h1, h2⟩
      · rw [drop_duplicates_by_tweetId, if_neg hn] at h
        rcases List.mem_cons.mp h with rfl | h
        · exact ⟨List.mem_cons_self _ _, hn⟩
        · obtain ⟨h1, h2⟩ := ih h
          simp only [List.mem_cons] at h2
          push_neg at h2
          exact ⟨List.mem_cons_of_mem _ h1, h2.2⟩

/-- Dedup output has pairwise distinct tweet ids. -/
theorem drop_duplicates_nodup (l : List Note) (seen : List Int) :
    ((drop_duplicates_by_tweetId seen l).map Note.tweetId).Nodup := by
  induction l generalizing seen with
  | nil => exact List.nodup_nil
  | cons n ns ih =>
      by_cases hn : n.tweetId ∈ seen
      · rw [drop_duplicates_by_tweetId, if_pos hn]
        exact ih seen
      · rw [drop_duplicates_by_tweetId, if_neg hn]
        rw [List.map_cons, List.nodup_cons]
        refine ⟨?_, ih _⟩
        intro hmem
        obtain ⟨m, hm, hmid⟩ := List.mem_map.mp hmem
        have := (mem_drop_duplicates hm).2
        rw [hmid] at this
        exact this (List.mem_cons_self _ _)

/-- Every surviving row is the first input occurrence of its tweet id. -/
theorem drop_duplicates_first_occurrence {l : List Note} {seen : List Int} {m : Note}
    (h : m ∈ drop_duplicates_by_tweetId seen l) :
    l.find? (fun x => decide (x.tweetId = m.tweetId)) = some m := by
  induction l generalizing seen with
  | nil => cases h
  | cons n ns ih =>
      by_cases hn : n.tweetId ∈ seen
      · rw [drop_duplicates_by_tweetId, if_pos hn] at h
        have hne : n.tweetId ≠ m.tweetId := by
          intro he
          exact (mem_drop_duplicates h).2 (he ▸ hn)
        rw [List.find?_cons_of_neg _ (by simpa using hne)]
        exact ih h
      · rw [drop_duplicates_by_tweetId, if_neg hn] at h
        rcases List.mem_cons.mp h with rfl | h
        · rw [List.find?_cons_of_pos _ (by simp)]
        · have hm2 := (mem_drop_duplicates h).2
          simp only [List.mem_cons] at hm2
          push_neg at hm2
          rw [List.find?_cons_of_neg _ (by simpa using fun he => hm2.1 he.symm)]
          exact ih h

/-- Every unseen input tweet id is represented in the dedup output. -/
theorem drop_duplicates_covers {n : Note} :
    ∀ (l : List Note) (seen : List Int), n ∈ l → n.tweetId ∉ seen →
      ∃ m ∈ drop_duplicates_by_tweetId seen l, m.tweetId = n.tweetId := by
  intro l
  induction l with
  | nil => intro seen hn _; cases hn
  | cons a ns ih =>
      intro seen hn hseen
      by_cases ha : a.tweetId ∈ seen
      · rw [drop_duplicates_by_tweetId, if_pos ha]
        rcases List.mem_cons.mp hn with rfl | hn'
        · exact absurd ha hseen
        · exact ih seen hn' hseen
      · rw [drop_duplicates_by_tweetId, if_neg ha]
        rcases List.mem_cons.mp hn with rfl | hn'
        · exact ⟨n, List.mem_cons_self _ _, rfl⟩
        · by_cases he : n.tweetId = a.tweetId
          · exact ⟨a, List.mem_cons_self _ _, he.symm⟩
          · obtain ⟨m, hm, hmid⟩ := ih (a.tweetId :: seen) hn'
              (by simp [he, hseen])
            exact ⟨m, List.mem_cons_of_mem _ hm, hmid⟩

/-- The dedup output is exactly one row per distinct input tweet id. -/
theorem drop_duplicates_length (l : List Note) :
    (drop_duplicates_by_tweetId [] l).length = (l.map Note.tweetId).dedup.length := by
  have hnd := drop_duplicates_nodup l []
  have hset : ((drop_duplicates_by_tweetId [] l).map Note.tweetId).toFinset =
      (l.map Note.tweetId).toFinset := by
    apply Finset.ext
    intro x
    simp only [List.mem_toFinset, List.mem_map]
    constructor
    · rintro ⟨m, hm, rfl⟩
      exact ⟨m, (mem_drop_duplicates hm).1, rfl⟩
    · rintro ⟨m, hm, rfl⟩
      obtain ⟨m2, hm2, hid⟩ := drop_duplicates_covers _ [] hm (by simp)
      exact ⟨m2, hm2, hid⟩
  calc (drop_duplicates_by_tweetId [] l).length
      = ((drop_duplicates_by_tweetId [] l).map Note.tweetId).length :=
        (List.length_map _ _).symm
    _ = ((drop_duplicates_by_tweetId [] l).map Note.tweetId).dedup.length := by
        rw [hnd.dedup]
    _ = ((drop_duplicates_by_tweetId [] l).map Note.tweetId).toFinset.card :=
        (List.card_toFinset _).symm
    _ = ((l.map Note.tweetId).toFinset).card := by rw [hset]
    _ = (l.map Note.tweetId).dedup.length := List.card_toFinset _

/-- C5: the pipeline keeps exactly the notes with a CURRENTLY_RATED_HELPFUL
status record (inner join, one copy per matching status row; unmatched notes
dropped), and the subsequent dedup by `tweetId` keeps exactly the first
surviving occurrence of each distinct tweet id: the output has one row per
distinct tweet id of the survivors, with pairwise distinct ids, each row
being the first survivor with its id. -/
theorem filter_dedup_correct (notes : List Note) (status : List StatusRec) :
    (∀ n, n ∈ load_and_filter_notes notes status ↔
        n ∈ notes ∧ ∃ s ∈ status,
          s.currentStatus = "CURRENTLY_RATED_HELPFUL" ∧ s.noteId = n.noteId) ∧
    ((drop_duplicates_by_tweetId [] (load_and_filter_notes notes status)).map
        Note.tweetId).Nodup ∧
    (∀ m ∈ drop_duplicates_by_tweetId [] (load_and_filter_notes notes status),
        (load_and_filter_notes notes status).find?
          (fun x => decide (x.tweetId = m.tweetId)) = some m) ∧
    (drop_duplicates_by_tweetId [] (load_and_filter_notes notes status)).length =
      ((load_and_filter_notes notes status).map Note.tweetId).dedup.length :=
  ⟨fun _ => mem_load_and_filter,
   drop_duplicates_nodup _ [],
   fun _ hm => drop_duplicates_first_occurrence hm,
   drop_duplicates_length _⟩

/-! ### Query services (`src/app.py` and `src/check_truth.py`) -/

/-- `SIMILARITY_THRESHOLD = 0.4` of `app.py` (0.4 = 2/5 exactly). -/
def SIMILARITY_THRESHOLD : ℚ := mkRat 2 5

/-- `SIMILARITY_THRESHOLD = 0.5` of `check_truth.py` (0.5 = 1/2 exactly). -/
def NOTE_SIMILARITY_THRESHOLD : ℚ := mkRat 1 2

/-- `TOP_K = 3` of `check_truth.py`. -/
def TOP_K : Nat := 3

/-- One JSON result object of `/api/search`. -/
structure SearchHit where
  tweet_id : Int
  tweet_url : String
  tweet_text : Option String
  note_text : String
  distance : ℚ
  similarity : ℚ
  is_match : Bool
  deriving Repr, DecidableEq

/-- The result dictionary built per row in `app.search`: Python's
`tweet_text if tweet_text and tweet_text != "MISSING_OR_DELETED" else None`
nulls out a missing, empty or sentinel text; `similarity = 1 - distance`;
`is_match = distance < SIMILARITY_THRESHOLD`. -/
def toSearchHit (dist : Vec → Vec → ℚ) (qvec : Vec) (r : Row) : SearchHit :=
  { tweet_id := r.tweet_id, tweet_url := r.tweet_url,
    tweet_text := match r.tweet_text with
      | some t => if t ≠ "" ∧ t ≠ "MISSING_OR_DELETED" then some t else none
      | none => none,
    note_text := r.note_text,
    distance := dist (r.tweet_vector.getD []) qvec,
    similarity := 1 - dist (r.tweet_vector.getD []) qvec,
    is_match := decide (dist (r.tweet_vector.getD []) qvec < SIMILARITY_THRESHOLD) }

/-- The `/api/search` query of `app.py`: `SELECT ... tweet_vector <=> q AS
distance FROM fact_checks WHERE tweet_vector IS NOT NULL ORDER BY distance
LIMIT 5`, each row rendered by `toSearchHit`.  `dist` is the external
pgvector cosine-distance operator; `ORDER BY` is realized by a sort on the
distance key. -/
def searchClaims (dist : Vec → Vec → ℚ) (qvec : Vec) (db : DB) : List SearchHit :=
  let rows := db.filter fun r => r.tweet_vector.isSome
  let sorted := rows.insertionSort fun a b =>
    dist (a.tweet_vector.getD []) qvec ≤ dist (b.tweet_vector.getD []) qvec
  (sorted.take 5).map (toSearchHit dist qvec)

/-- `search_notes` of `check_truth.py`: `SELECT note_text, tweet_url,
note_vector <=> q AS distance FROM fact_checks ORDER BY distance ASC
LIMIT top_k`. -/
def search_notes (dist : Vec → Vec → ℚ) (qvec : Vec) (db : DB) (top_k : Nat) :
    List (String × String × ℚ) :=
  let sorted := db.insertionSort fun a b =>
    dist a.note_vector qvec ≤ dist b.note_vector qvec
  (sorted.take top_k).map fun r => (r.note_text, r.tweet_url, dist r.note_vector qvec)

/-- The hits `display_results` of `check_truth.py` presents as relevant
matches: nothing when there are no results or the best distance is not
below the threshold; otherwise every result not skipped by
`if distance > SIMILARITY_THRESHOLD: continue`. -/
def display_results (results : List (String × String × ℚ)) :
    List (String × String × ℚ) :=
  match results with
  | [] => []
  | r :: _ =>
      if r.2.2 < NOTE_SIMILARITY_THRESHOLD then
        results.filter fun x => decide (¬ (x.2.2 > NOTE_SIMILARITY_THRESHOLD))
      else []

/-- Fixture distance function for the C6 counterexample (the distance
operator is external, so any function refutes a for-all-distances claim):
it reads the distance directly off the stored vector's head. -/
def dist0 (a _b : Vec) : ℚ := a.headD 0

/-- Fixture table for the C6 counterexample: two fully-populated rows whose
note vectors are at distances 0 and exactly 1/2 from any query. -/
def c6Db : DB :=
  [⟨1, 1, "ua", some "ta", some [0], some "Text", "a", [0]⟩,
   ⟨2, 2, "ub", some "tb", some [0], some "Text", "b", [mkRat 1 2]⟩]

/-- C6 counterexample: the note-search CLI displays the hit at distance
exactly 1/2 as a relevant match, although its distance is not below the
note threshold 0.5 — the display skips only hits with `distance >
threshold`, so the claimed strict `distance < threshold` match criterion is
wrong at the boundary (and note-search hits carry only the raw distance; no
similarity or match flag is returned by `search_notes`). -/
theorem note_match_boundary_cex :
    ("b", "ub", mkRat 1 2) ∈ display_results (search_notes dist0 [0] c6Db TOP_K) ∧
    ¬ (mkRat 1 2 < NOTE_SIMILARITY_THRESHOLD) := by
  constructor
  · decide
  · decide

/-- Taking a prefix of an insertion sort by a rational key and projecting the
key yields a weakly increasing list. -/
theorem sorted_take_map_key {α : Type} (key : α → ℚ) (l : List α) (n : Nat) :
    (((l.insertionSort fun a b => key a ≤ key b).take n).map key).Sorted (· ≤ ·) := by
  haveI ht : IsTotal α fun a b => key a ≤ key b := ⟨fun a b => le_total _ _⟩
  haveI htr : IsTrans α fun a b => key a ≤ key b := ⟨fun a b c h1 h2 => le_trans h1 h2⟩
  have hs : (l.insertionSort fun a b => key a ≤ key b).Sorted fun a b => key a ≤ key b :=
    List.sorted_insertionSort _ l
  have htake : ((l.insertionSort fun a b => key a ≤ key b).take n).Sorted
      fun a b => key a ≤ key b :=
    List.Pairwise.sublist (List.take_sublist n _) hs
  exact (List.pairwise_map).mpr htake

/-- Membership characterization of the match display of `check_truth.py`:
a hit is shown as a relevant match exactly when the best distance is below
the threshold and the hit's own distance is at most the threshold. -/
theorem mem_display_results_iff (results : List (String × String × ℚ))
    (x : String × String × ℚ) :
    x ∈ display_results results ↔
      (∃ y, results.head? = some y ∧ y.2.2 < NOTE_SIMILARITY_THRESHOLD) ∧
      x ∈ results ∧ x.2.2 ≤ NOTE_SIMILARITY_THRESHOLD := by
  cases results with
  | nil => simp [display_results]
  | cons r rs =>
      by_cases hr : r.2.2 < NOTE_SIMILARITY_THRESHOLD
      · simp only [display_results, if_pos hr, List.mem_filter, List.head?_cons,
          Option.some.injEq, decide_eq_true_eq]
        constructor
        · rintro ⟨hmem, hle⟩
          exact ⟨⟨r, rfl, hr⟩, hmem, not_lt.mp hle⟩
        · rintro ⟨_, hmem, hle⟩
          exact ⟨hmem, not_lt.mpr hle⟩
      · simp only [display_results, if_neg hr, List.not_mem_nil, false_iff,
          List.head?_cons, Option.some.injEq, not_and]
        rintro ⟨y, rfl, hlt⟩
        exact absurd hlt hr

/-- C6 as amended: claim search returns at most 5 hits in ascending distance
order, each carrying `similarity = 1 - distance` and `is_match` true exactly
when `distance < 0.4`; note search returns at most `TOP_K = 3` tuples in
ascending distance order carrying the raw distance, and the CLI displays a
hit as a relevant match exactly when the best distance is below 0.5 and the
hit's own distance is at most 0.5 (boundary inclusive). -/
theorem search_contract (dist : Vec → Vec → ℚ) (encode : String → Vec)
    (db : DB) (q : String) :
    (searchClaims dist (encode q) db).length ≤ 5 ∧
    ((searchClaims dist (encode q) db).map SearchHit.distance).Sorted (· ≤ ·) ∧
    (∀ h ∈ searchClaims dist (encode q) db,
        h.similarity = 1 - h.distance ∧
        (h.is_match = true ↔ h.distance < SIMILARITY_THRESHOLD)) ∧
    (search_notes dist (encode q) db TOP_K).length ≤ TOP_K ∧
    ((search_notes dist (encode q) db TOP_K).map (fun x => x.2.2)).Sorted (· ≤ ·) ∧
    (∀ x, x ∈ display_results (search_notes dist (encode q) db TOP_K) ↔
        (∃ y, (search_notes dist (encode q) db TOP_K).head? = some y ∧
           y.2.2 < NOTE_SIMILARITY_THRESHOLD) ∧
        x ∈ search_notes dist (encode q) db TOP_K ∧
        x.2.2 ≤ NOTE_SIMILARITY_THRESHOLD) := by
  refine ⟨?_, ?_, ?_, ?_, ?_, ?_⟩
  · simp only [searchClaims, List.length_map]
    exact List.length_take_le _ _
  · have h1 : (searchClaims dist (encode q) db).map SearchHit.distance =
        ((((db.filter fun r => r.tweet_vector.isSome).insertionSort fun a b =>
            dist (a.tweet_vector.getD []) (encode q) ≤
              dist (b.tweet_vector.getD []) (encode q)).take 5).map
          fun r => dist (r.tweet_vector.getD []) (encode q)) := by
      simp only [searchClaims, List.map_map]
      rfl
    rw [h1]
    exact sorted_take_map_key _ _ _
  · intro h hh
    simp only [searchClaims, List.mem_map] at hh
    obtain ⟨r, _, rfl⟩ := hh
    exact ⟨rfl, by simp [toSearchHit]⟩
  · simp only [search_notes, List.length_map]
    exact List.length_take_le _ _
  · have h2 : (search_notes dist (encode q) db TOP_K).map (fun x => x.2.2) =
        (((db.insertionSort fun a b =>
            dist a.note_vector (encode q) ≤ dist b.note_vector (encode q)).take
              TOP_K).map fun r => dist r.note_vector (encode q)) := by
      simp only [search_notes, List.map_map]
      rfl
    rw [h2]
    exact sorted_take_map_key _ _ _
  · intro x
    exact mem_display_results_iff _ x

/-! ### Source data fetcher (`src/ingest_notes.py`, `download_latest_data`) -/

/-- The two required datasets (`DATASETS` of `ingest_notes.py`). -/
def DATASETS : List String := ["notes-00000", "noteStatusHistory-00000"]

/-- The external filesystem and network as `download_latest_data` observes
them, per day offset (0 = today, 1 = yesterday, 2 = the day before) and
dataset base name: whether the canonical dated TSV already exists locally,
whether the ZIP download succeeds, whether a downloaded ZIP contains a TSV
entry that extracts and renames cleanly, and whether the dated respectively
legacy TSV downloads succeed. -/
structure FetchWorld where
  existsLocal : Nat → String → Bool
  zipOk : Nat → String → Bool
  zipExtractOk : Nat → String → Bool
  tsvOk : Nat → String → Bool
  legacyOk : Nat → String → Bool

/-- The per-dataset body of the day loop of `download_latest_data`: skip if
the canonical TSV exists; otherwise try the ZIP download, and if the ZIP
download succeeded the dataset succeeds exactly when extraction succeeds
(a bad ZIP fails the dataset without any TSV fallback); only when the ZIP
download itself failed fall back to the dated TSV, then the legacy TSV. -/
def tryDataset (w : FetchWorld) (day : Nat) (ds : String) : Bool :=
  if w.existsLocal day ds then true
  else if w.zipOk day ds then w.zipExtractOk day ds
  else if w.tsvOk day ds then true
  else w.legacyOk day ds

/-- A day succeeds when every dataset succeeds (the Python loop breaks at
the first failing dataset; for the day's success value this is the same as
checking them all). -/
def tryDay (w : FetchWorld) (day : Nat) : Bool :=
  DATASETS.all (tryDataset w day)

/-- `download_latest_data`: try day offsets 0, 1, 2 in order and return the
first fully successful day (the returned file paths are a deterministic
rendering of that day's date), or `None` when all three days fail. -/
def download_latest_data (w : FetchWorld) : Option Nat :=
  (List.range 3).find? (tryDay w)

/-- Modelled from the spec: the per-dataset behavior C8 claims, in which a
dataset fails only if all three strategies failed — the dated TSV and the
legacy TSV are tried even when a ZIP was downloaded but would not extract. -/
def tryDatasetSpec (w : FetchWorld) (day : Nat) (ds : String) : Bool :=
  w.existsLocal day ds || (w.zipOk day ds && w.zipExtractOk day ds) ||
    w.tsvOk day ds || w.legacyOk day ds

/-- Fixture world for the C8 counterexample: no local files, every ZIP
download succeeds but never extracts, and the dated TSV download always
succeeds. -/
def w8 : FetchWorld :=
  { existsLocal := fun _ _ => false, zipOk := fun _ _ => true,
    zipExtractOk := fun _ _ => false, tsvOk := fun _ _ => true,
    legacyOk := fun _ _ => false }

/-- C8 counterexample: with a well-downloaded but unextractable ZIP and a
working dated-TSV fallback, the code fails the dataset (and all three days,
returning `None`) even though strategy 2 would have succeeded, so a dataset
does not fail "only if all three strategies have failed". -/
theorem fetch_fallback_cex :
    tryDataset w8 0 "notes-00000" = false ∧
    tryDatasetSpec w8 0 "notes-00000" = true ∧
    download_latest_data w8 = none := by
  refine ⟨rfl, rfl, ?_⟩
  decide

/-- If a successful day is found, every earlier day offset failed. -/
theorem download_min {w : FetchWorld} {day : Nat}
    (h : download_latest_data w = some day) : ∀ d < day, tryDay w d = false := by
  unfold download_latest_data at h
  rw [show List.range 3 = [0, 1, 2] from rfl] at h
  by_cases h0 : tryDay w 0 = true
  · rw [List.find?_cons_of_pos _ h0] at h
    injection h with h
    subst h
    intro d hd
    exact absurd hd (Nat.not_lt_zero d)
  · have h0f : tryDay w 0 = false := Bool.eq_false_iff.mpr h0
    rw [List.find?_cons_of_neg _ (by rw [h0f]; exact Bool.false_ne_true)] at h
    by_cases h1 : tryDay w 1 = true
    · rw [List.find?_cons_of_pos _ h1] at h
      injection h with h
      subst h
      intro d hd
      have hd0 : d = 0 := by omega
      rw [hd0]
      exact h0f
    · have h1f : tryDay w 1 = false := Bool.eq_false_iff.mpr h1
      rw [List.find?_cons_of_neg _ (by rw [h1f]; exact Bool.false_ne_true)] at h
      by_cases h2 : tryDay w 2 = true
      · rw [List.find?_cons_of_pos _ h2] at h
        injection h with h
        subst h
        intro d hd
        have : d = 0 ∨ d = 1 := by omega
        rcases this with rfl | rfl
        · exact h0f
        · exact h1f
      · have h2f : tryDay w 2 = false := Bool.eq_false_iff.mpr h2
        rw [List.find?_cons_of_neg _ (by rw [h2f]; exact Bool.false_ne_true)] at h
        simp at h

/-- C8 as amended: per dataset not already present, the ZIP strategy is
tried first, and when the ZIP download succeeds the dataset succeeds exactly
when extraction does — the dated-TSV and legacy-TSV strategies are fallbacks
for a failed ZIP download only, in that order; a day fails when some dataset
fails, and exhausting day offsets 0, 1 and 2 yields `None` to the caller. -/
theorem fetch_strategy_order (w : FetchWorld) :
    (∀ day ds, tryDataset w day ds =
      (w.existsLocal day ds ||
        (if w.zipOk day ds then w.zipExtractOk day ds
         else w.tsvOk day ds || w.legacyOk day ds))) ∧
    (∀ day, tryDay w day = true ↔ ∀ ds ∈ DATASETS, tryDataset w day ds = true) ∧
    (download_latest_data w = none ↔ ∀ day < 3, tryDay w day = false) ∧
    (∀ day, download_latest_data w = some day →
      tryDay w day = true ∧ ∀ d < day, tryDay w d = false) := by
  refine ⟨?_, ?_, ?_, ?_⟩
  · intro day ds
    unfold tryDataset
    by_cases h1 : w.existsLocal day ds <;>
      by_cases h2 : w.zipOk day ds <;>
        by_cases h3 : w.tsvOk day ds <;>
          simp [h1, h2, h3]
  · intro day
    simp [tryDay, List.all_eq_true]
  · constructor
    · intro hnone day hday
      have : (List.range 3).find? (tryDay w) = none := hnone
      rw [List.find?_eq_none] at this
      exact Bool.eq_false_iff.mpr (this day (List.mem_range.mpr hday))
    · intro hall
      unfold download_latest_data
      rw [List.find?_eq_none]
      intro day hday
      rw [hall day (List.mem_range.mp hday)]
      exact Bool.false_ne_true
  · intro day hsome
    exact ⟨List.find?_some hsome, download_min hsome⟩

/-! ### Reachable database states (Batch Loader plus Enrichment Loop) -/

/-- `updNote` never touches `tweet_text`. -/
theorem updNote_text (t : NoteInput) (r : Row) :
    (updNote t r).tweet_text = r.tweet_text := by
  unfold updNote
  by_cases h : r.tweet_id = t.tweet_id <;> simp [h]

/-- `updNote` never touches `tweet_vector`. -/
theorem updNote_vec (t : NoteInput) (r : Row) :
    (updNote t r).tweet_vector = r.tweet_vector := by
  unfold updNote
  by_cases h : r.tweet_id = t.tweet_id <;> simp [h]

/-- Every row of an `insert_batch` result either keeps the enrichment fields
of a pre-existing row or is freshly inserted with both fields null. -/
theorem insert_batch_rows {batch : List NoteInput} :
    ∀ {db : DB} {r : Row}, r ∈ insert_batch db batch →
      (∃ s ∈ db, r.tweet_text = s.tweet_text ∧ r.tweet_vector = s.tweet_vector) ∨
      (r.tweet_text = none ∧ r.tweet_vector = none) := by
  induction batch with
  | nil => intro db r h; exact Or.inl ⟨r, h, rfl, rfl⟩
  | cons t ts ih =>
      intro db r h
      rcases ih h with ⟨s, hs, h1, h2⟩ | hnew
      · by_cases ht : hasTid db t.tweet_id = true
        · rw [upsert_eq_of_hasTid ht] at hs
          obtain ⟨s2, hs2, rfl⟩ := List.mem_map.mp hs
          rw [updNote_text] at h1
          rw [updNote_vec] at h2
          exact Or.inl ⟨s2, hs2, h1, h2⟩
        · rw [upsert_eq_of_not_hasTid (Bool.eq_false_iff.mpr ht)] at hs
          rcases List.mem_append.mp hs with hs' | hs'
          · exact Or.inl ⟨s, hs', h1, h2⟩
          · rcases List.mem_singleton.mp hs' with rfl
            exact Or.inr ⟨h1, h2⟩
      · exact Or.inr hnew

/-- `update_row` never changes the id column (both branches update in
place). -/
theorem ids_update_row (db : DB) (i : Nat) (text : String)
    (vec : Option Vec) (fmt : String) :
    (update_row db i text vec fmt).map Row.id = db.map Row.id := by
  cases vec with
  | none =>
      exact ids_map_of_preserves
        (fun r => by by_cases h : r.id = i <;> simp [h]) db
  | some v =>
      exact ids_map_of_preserves
        (fun r => by by_cases h : r.id = i <;> simp [h]) db

/-- Any member of a Nat list is bounded by its max fold. -/
theorem le_foldr_max {l : List Nat} {a : Nat} (h : a ∈ l) :
    a ≤ l.foldr max 0 := by
  induction l with
  | nil => cases h
  | cons b bs ih =>
      rcases List.mem_cons.mp h with rfl | h'
      · exact le_max_left _ _
      · exact le_trans (ih h') (le_max_right _ _)

/-- Fresh serial ids are strictly above every stored id. -/
theorem id_lt_freshId {db : DB} {r : Row} (h : r ∈ db) : r.id < freshId db :=
  Nat.lt_succ_of_le (le_foldr_max (List.mem_map_of_mem Row.id h))

/-- Upserting preserves distinctness of the id column. -/
theorem nodup_ids_upsert {db : DB} (t : NoteInput)
    (h : (db.map Row.id).Nodup) : ((upsert db t).map Row.id).Nodup := by
  by_cases ht : hasTid db t.tweet_id = true
  · rw [upsert_eq_of_hasTid ht, ids_map_of_preserves (updNote_id t)]
    exact h
  · rw [upsert_eq_of_not_hasTid (Bool.eq_false_iff.mpr ht), List.map_append,
      List.nodup_append]
    refine ⟨h, List.nodup_singleton _, ?_⟩
    intro a ha hb
    simp only [List.map_cons, List.map_nil, List.mem_singleton] at hb
    obtain ⟨s, hs, rfl⟩ := List.mem_map.mp ha
    have hlt := id_lt_freshId hs
    have hnr : (newRow db t).id = freshId db := rfl
    rw [hnr] at hb
    omega

/-- `insert_batch` preserves distinctness of the id column. -/
theorem nodup_ids_insert_batch {batch : List NoteInput} :
    ∀ {db : DB}, (db.map Row.id).Nodup →
      ((insert_batch db batch).map Row.id).Nodup := by
  induction batch with
  | nil => intro db h; exact h
  | cons t ts ih => intro db h; exact ih (nodup_ids_upsert t h)

/-- The external embedding model `encode` and the set `P` of texts the
content API can return parametrize which stores are reachable from the
empty table by Batch Loader runs and committed Enrichment Loop writes: an
ingest of any prepared batch; a successful enrichment of a selected row
(`main` routes a response text equal to `"MISSING"` into the missing
branch, so success writes require `text ≠ "MISSING"`); or a 404-style
missing markdown of a selected row. -/
inductive Reachable (encode : String → Vec) (P : String → Prop) : DB → Prop where
  | init : Reachable encode P []
  | ingest (db : DB) (batch : List NoteInput) :
      Reachable encode P db → Reachable encode P (insert_batch db batch)
  | enrichSuccess (db : DB) (i : Nat) (u : String) (text fmt : String) :
      Reachable encode P db → (i, u) ∈ get_null_rows db BATCH_SIZE →
      text ≠ "MISSING" → P text →
      Reachable encode P (update_row db i text (some (encode text)) fmt)
  | enrichMissing (db : DB) (i : Nat) (u : String) :
      Reachable encode P db → (i, u) ∈ get_null_rows db BATCH_SIZE →
      Reachable encode P (update_row db i "MISSING" none "Missing")

/-- Reachable states have pairwise distinct ids (the `SERIAL` primary key). -/
theorem Reachable.nodup_ids {encode : String → Vec} {P : String → Prop}
    {db : DB} (h : Reachable encode P db) : (db.map Row.id).Nodup := by
  induction h with
  | init => exact List.nodup_nil
  | ingest db batch _ ih => exact nodup_ids_insert_batch ih
  | enrichSuccess db i u text fmt _ _ _ _ ih =>
      rw [ids_update_row]; exact ih
  | enrichMissing db i u _ _ ih =>
      rw [ids_update_row]; exact ih

/-- An eligible row has null `tweet_text`. -/
theorem eligible_text_none {r : Row} (h : eligible r = true) :
    r.tweet_text = none := by
  simp only [eligible, Bool.and_eq_true, Option.isNone_iff_eq_none] at h
  exact h.1

/-- In every reachable state a non-null `tweet_vector` implies a non-null
`tweet_text` (no write ever stores a vector without a text). -/
theorem Reachable.vec_text {encode : String → Vec} {P : String → Prop}
    {db : DB} (h : Reachable encode P db) :
    ∀ r ∈ db, r.tweet_vector ≠ none → r.tweet_text ≠ none := by
  induction h with
  | init => intro r hr; cases hr
  | ingest db batch _ ih =>
      intro r hr hv
      rcases insert_batch_rows hr with ⟨s, hs, h1, h2⟩ | ⟨h1, h2⟩
      · rw [h1]; exact ih s hs (h2 ▸ hv)
      · exact absurd h2 hv
  | enrichSuccess db i u text fmt _ _ _ _ ih =>
      intro r hr hv
      obtain ⟨s, hs, rfl⟩ := List.mem_map.mp hr
      by_cases hid : s.id = i
      · simp only [update_row, hid, if_pos rfl]
        exact Option.some_ne_none _
      · simp only [update_row, if_neg hid] at hv ⊢
        exact ih s hs hv
  | enrichMissing db i u _ _ ih =>
      intro r hr hv
      obtain ⟨s, hs, rfl⟩ := List.mem_map.mp hr
      by_cases hid : s.id = i
      · simp only [update_row, hid, if_pos rfl]
        exact Option.some_ne_none _
      · simp only [update_row, if_neg hid] at hv ⊢
        exact ih s hs hv

/-- C7 as amended: in every state reachable while the content API never
returns a text equal to the sentinel `'MISSING_OR_DELETED'` itself, each
record satisfies: `tweet_vector` is non-null iff `tweet_text` is non-null
and not the sentinel. -/
theorem vector_text_invariant (encode : String → Vec) {db : DB}
    (h : Reachable encode (fun t => t ≠ "MISSING_OR_DELETED") db) :
    ∀ r ∈ db, (r.tweet_vector ≠ none ↔
      r.tweet_text ≠ none ∧ r.tweet_text ≠ some "MISSING_OR_DELETED") := by
  induction h with
  | init => intro r hr; cases hr
  | ingest db batch hsub ih =>
      intro r hr
      rcases insert_batch_rows hr with ⟨s, hs, h1, h2⟩ | ⟨h1, h2⟩
      · rw [h1, h2]; exact ih s hs
      · rw [h1, h2]; simp
  | enrichSuccess db i u text fmt hsub hmem hnm hP ih =>
      intro r hr
      simp only [update_row] at hr
      obtain ⟨s, hs, rfl⟩ := List.mem_map.mp hr
      by_cases hid : s.id = i
      · rw [if_pos hid]
        simp [hP]
      · rw [if_neg hid]
        exact ih s hs
  | enrichMissing db i u hsub hmem ih =>
      intro r hr
      simp only [update_row] at hr
      obtain ⟨s, hs, rfl⟩ := List.mem_map.mp hr
      by_cases hid : s.id = i
      · obtain ⟨srow, hsrow, hid2, _, helig⟩ := get_null_rows_source hmem
        have hseq : s = srow :=
          List.inj_on_of_nodup_map hsub.nodup_ids hs hsrow (by rw [hid, hid2])
        have htext : s.tweet_text = none := by
          rw [hseq]; exact eligible_text_none helig
        have hvec : s.tweet_vector = none := by
          by_contra hv
          exact ((ih s hs).mp hv).1 htext
        rw [if_pos hid]
        simp [hvec]
      · rw [if_neg hid]
        exact ih s hs

/-- The dedup input tuple behind the fixtures: tweet 5 with note `"n"`. -/
def t0 : NoteInput := ⟨5, "https://twitter.com/i/web/status/5", "n", []⟩

/-- The store after one Batch Loader run on `[t0]`. -/
def c7Db0 : DB := insert_batch [] [t0]

/-- The store after enriching tweet 5 with a fetched text that happens to be
the literal sentinel string. -/
def c7CexDb : DB :=
  update_row c7Db0 1 "MISSING_OR_DELETED" (some (enc0 "MISSING_OR_DELETED")) "Text"

/-- C7 counterexample: if the content API successfully returns a tweet whose
text is literally `'MISSING_OR_DELETED'`, the enrichment success path stores
that text together with its embedding, reaching a state with a non-null
`tweet_vector` whose `tweet_text` equals the sentinel — the claimed iff
fails in a reachable state. -/
theorem vector_text_invariant_cex :
    Reachable enc0 (fun _ => True) c7CexDb ∧
    ∃ r ∈ c7CexDb, r.tweet_vector ≠ none ∧
      r.tweet_text = some "MISSING_OR_DELETED" := by
  constructor
  · exact Reachable.enrichSuccess c7Db0 1 "https://twitter.com/i/web/status/5"
      "MISSING_OR_DELETED" "Text" (Reachable.ingest [] [t0] Reachable.init)
      (by decide) (by decide) trivial
  · decide

/-- The store after enriching tweet 5 with the harmless text `"hello"`. -/
def c7GoodDb : DB := update_row c7Db0 1 "hello" (some (enc0 "hello")) "Text"

/-- Concrete instantiation of the amended C7 on a three-step reachable
state. -/
theorem vector_text_invariant_witness :
    Reachable enc0 (fun t => t ≠ "MISSING_OR_DELETED") c7GoodDb ∧
    ∀ r ∈ c7GoodDb, (r.tweet_vector ≠ none ↔
      r.tweet_text ≠ none ∧ r.tweet_text ≠ some "MISSING_OR_DELETED") := by
  have hder : Reachable enc0 (fun t => t ≠ "MISSING_OR_DELETED") c7GoodDb :=
    Reachable.enrichSuccess c7Db0 1 "https://twitter.com/i/web/status/5"
      "hello" "Text" (Reachable.ingest [] [t0] Reachable.init)
      (by decide) (by decide) (by decide)
  exact ⟨hder, vector_text_invariant enc0 hder⟩

/-- C10: in every reachable state, each `/api/search` result is rendered
from a stored row whose `tweet_vector` is non-null (the `WHERE tweet_vector
IS NOT NULL` clause), and the result's `tweet_text` field is null exactly
when the stored text is the empty string or the sentinel
`'MISSING_OR_DELETED'` (in reachable states a row with a vector always has
a stored text, so the Python falsiness test reduces to those two cases). -/
theorem search_results_from_enriched (encode : String → Vec)
    (dist : Vec → Vec → ℚ) (P : String → Prop) (q : String) {db : DB}
    (h : Reachable encode P db) :
    ∀ hit ∈ searchClaims dist (encode q) db, ∃ r ∈ db,
      r.tweet_vector ≠ none ∧ hit = toSearchHit dist (encode q) r ∧
      (hit.tweet_text = none ↔
        r.tweet_text = some "" ∨ r.tweet_text = some "MISSING_OR_DELETED") := by
  intro hit hh
  simp only [searchClaims, List.mem_map] at hh
  obtain ⟨r, hr, rfl⟩ := hh
  have hmem : r ∈ db.filter (fun r => r.tweet_vector.isSome) :=
    (List.mem_insertionSort _).mp (List.mem_of_mem_take hr)
  have rdb : r ∈ db := List.mem_of_mem_filter hmem
  have hsome : r.tweet_vector.isSome = true := (List.mem_filter.mp hmem).2
  have hvec : r.tweet_vector ≠ none := Option.isSome_iff_ne_none.mp hsome
  have htext : r.tweet_text ≠ none := h.vec_text r rdb hvec
  refine ⟨r, rdb, hvec, rfl, ?_⟩
  obtain ⟨t, ht⟩ := Option.ne_none_iff_exists'.mp htext
  simp only [toSearchHit, ht]
  by_cases h1 : t = ""
  · simp [h1]
  · by_cases h2 : t = "MISSING_OR_DELETED"
    · simp [h1, h2]
    · simp [h1, h2]

/-- Concrete instantiation of C10 on a reachable three-step state with a
concrete distance function. -/
theorem search_results_from_enriched_witness :
    Reachable enc0 (fun _ => True) c7GoodDb ∧
    ∀ hit ∈ searchClaims dist0 (enc0 "claim") c7GoodDb, ∃ r ∈ c7GoodDb,
      r.tweet_vector ≠ none ∧ hit = toSearchHit dist0 (enc0 "claim") r ∧
      (hit.tweet_text = none ↔
        r.tweet_text = some "" ∨ r.tweet_text = some "MISSING_OR_DELETED") := by
  have hder : Reachable enc0 (fun _ => True) c7GoodDb :=
    Reachable.enrichSuccess c7Db0 1 "https://twitter.com/i/web/status/5"
      "hello" "Text" (Reachable.ingest [] [t0] Reachable.init)
      (by decide) (by decide) trivial
  exact ⟨hder, search_results_from_enriched enc0 dist0 (fun _ => True) "claim" hder⟩

/-! ### Enrichment loop termination (`src/enrich_pairs.py`, `main`) -/

/-- The per-row state transformer realized by `processRow` on the row with
the selected id: skip on fetch failure, mark missing on `"MISSING"`, write
text, embedding and format otherwise.  `processRow` is exactly a map of
this function over the table (the `UPDATE ... WHERE id` touches matching
rows and nothing else). -/
def gStep (encode : String → Vec) (http : String → HttpResult)
    (p : Nat × String) (r : Row) : Row :=
  match fetch_tweet_details http p.2 with
  | none => r
  | some (t, f) =>
      if r.id = p.1 then
        if t = "MISSING" then
          { r with tweet_text := some "MISSING_OR_DELETED",
                   tweet_format := some "Missing" }
        else
          { r with tweet_text := some t, tweet_vector := some (encode t),
                   tweet_format := some f }
      else r

theorem processRow_eq_map (encode : String → Vec) (http : String → HttpResult)
    (db : DB) (p : Nat × String) :
    processRow encode http db p.1 p.2 = db.map (gStep encode http p) := by
  cases hf : fetch_tweet_details http p.2 with
  | none =>
      simp only [processRow, hf]
      have hg : ∀ r, gStep encode http p r = r := fun r => by simp [gStep, hf]
      exact ((List.map_congr_left fun r _ => hg r).trans (List.map_id db)).symm
  | some tf =>
      obtain ⟨t, f⟩ := tf
      simp only [processRow, hf]
      by_cases ht : t = "MISSING"
      · rw [if_pos ht]
        simp only [update_row]
        apply List.map_congr_left
        intro r _
        simp [gStep, hf, ht]
      · rw [if_neg ht]
        simp only [update_row]
        apply List.map_congr_left
        intro r _
        simp [gStep, hf, ht]

/-- A whole pass is a map of the composite per-row transformer. -/
theorem enrichPass_eq_map (encode : String → Vec) (http : String → HttpResult)
    (ps : List (Nat × String)) :
    ∀ db : DB, ps.foldl (fun d p => processRow encode http d p.1 p.2) db =
      db.map fun r => ps.foldl (fun r p => gStep encode http p r) r := by
  induction ps with
  | nil => intro db; simp
  | cons p ps ih =>
      intro db
      show ps.foldl _ (processRow encode http db p.1 p.2) = _
      rw [processRow_eq_map, ih, List.map_map]
      rfl

theorem gStep_id (encode : String → Vec) (http : String → HttpResult)
    (p : Nat × String) (r : Row) : (gStep encode http p r).id = r.id := by
  unfold gStep
  cases hf : fetch_tweet_details http p.2 with
  | none => rfl
  | some tf =>
      obtain ⟨t, f⟩ := tf
      by_cases h1 : r.id = p.1 <;> by_cases h2 : t = "MISSING" <;> simp [h1, h2]

theorem gStep_url (encode : String → Vec) (http : String → HttpResult)
    (p : Nat × String) (r : Row) :
    (gStep encode http p r).tweet_url = r.tweet_url := by
  unfold gStep
  cases hf : fetch_tweet_details http p.2 with
  | none => rfl
  | some tf =>
      obtain ⟨t, f⟩ := tf
      by_cases h1 : r.id = p.1 <;> by_cases h2 : t = "MISSING" <;> simp [h1, h2]

/-- A step either skips the row entirely or leaves it with non-null text. -/
theorem gStep_eq_or_text (encode : String → Vec) (http : String → HttpResult)
    (p : Nat × String) (r : Row) :
    gStep encode http p r = r ∨ (gStep encode http p r).tweet_text ≠ none := by
  unfold gStep
  cases hf : fetch_tweet_details http p.2 with
  | none => exact Or.inl rfl
  | some tf =>
      obtain ⟨t, f⟩ := tf
      by_cases h1 : r.id = p.1
      · by_cases h2 : t = "MISSING" <;>
          · right
            simp [h1, h2]
      · exact Or.inl (by simp [h1])

/-- A row selected by its id and resolvable by the network ends a step with
non-null text. -/
theorem gStep_hit (encode : String → Vec) (http : String → HttpResult)
    {p : Nat × String} {r : Row} (hid : r.id = p.1)
    (hf : fetch_tweet_details http p.2 ≠ none) :
    (gStep encode http p r).tweet_text ≠ none := by
  unfold gStep
  cases hfe : fetch_tweet_details http p.2 with
  | none => exact absurd hfe hf
  | some tf =>
      obtain ⟨t, f⟩ := tf
      by_cases h2 : t = "MISSING" <;> simp [hid, h2]

theorem gStep_text_stays (encode : String → Vec) (http : String → HttpResult)
    (p : Nat × String) {r : Row} (h : r.tweet_text ≠ none) :
    (gStep encode http p r).tweet_text ≠ none := by
  rcases gStep_eq_or_text encode http p r with he | hne
  · rw [he]; exact h
  · exact hne

theorem foldl_gStep_text_stays (encode : String → Vec) (http : String → HttpResult)
    (ps : List (Nat × String)) :
    ∀ {r : Row}, r.tweet_text ≠ none →
      (ps.foldl (fun r p => gStep encode http p r) r).tweet_text ≠ none := by
  induction ps with
  | nil => intro r h; exact h
  | cons p ps ih => intro r h; exact ih (gStep_text_stays encode http p h)

theorem foldl_gStep_id (encode : String → Vec) (http : String → HttpResult)
    (ps : List (Nat × String)) :
    ∀ r : Row, (ps.foldl (fun r p => gStep encode http p r) r).id = r.id := by
  induction ps with
  | nil => intro r; rfl
  | cons p ps ih =>
      intro r
      show (ps.foldl _ (gStep encode http p r)).id = r.id
      rw [ih, gStep_id]

theorem foldl_gStep_url (encode : String → Vec) (http : String → HttpResult)
    (ps : List (Nat × String)) :
    ∀ r : Row, (ps.foldl (fun r p => gStep encode http p r) r).tweet_url =
      r.tweet_url := by
  induction ps with
  | nil => intro r; rfl
  | cons p ps ih =>
      intro r
      show (ps.foldl _ (gStep encode http p r)).tweet_url = r.tweet_url
      rw [ih, gStep_url]

/-- A pass over a selection containing the row's id resolves the row. -/
theorem foldl_gStep_hits (encode : String → Vec) (http : String → HttpResult)
    {ps : List (Nat × String)} {p0 : Nat × String} (hp0 : p0 ∈ ps) :
    ∀ {r : Row}, r.id = p0.1 → fetch_tweet_details http p0.2 ≠ none →
      (ps.foldl (fun r p => gStep encode http p r) r).tweet_text ≠ none := by
  induction ps with
  | nil => cases hp0
  | cons p ps ih =>
      intro r hid hf
      rcases List.mem_cons.mp hp0 with rfl | hp0'
      · exact foldl_gStep_text_stays encode http ps
          (gStep_hit encode http hid hf)
      · exact ih hp0' (by rw [gStep_id]; exact hid) hf

/-- A row that is eligible after a pass was untouched by it. -/
theorem foldl_gStep_none_eq (encode : String → Vec) (http : String → HttpResult)
    (ps : List (Nat × String)) :
    ∀ {r : Row}, (ps.foldl (fun r p => gStep encode http p r) r).tweet_text = none →
      ps.foldl (fun r p => gStep encode http p r) r = r := by
  induction ps with
  | nil => intro r _; rfl
  | cons p ps ih =>
      intro r h
      have heq := ih (r := gStep encode http p r) h
      rcases gStep_eq_or_text encode http p r with he | hne
      · show ps.foldl _ (gStep encode http p r) = r
        rw [heq, he]
      · exfalso
        apply hne
        rw [← heq]
        exact h

theorem eligible_foldl_gStep (encode : String → Vec) (http : String → HttpResult)
    (ps : List (Nat × String)) {r : Row}
    (h : eligible (ps.foldl (fun r p => gStep encode http p r) r) = true) :
    eligible r = true := by
  have hnone := eligible_text_none h
  have heq := foldl_gStep_none_eq encode http ps hnone
  rw [heq] at h
  exact h

/-- A pointwise-dominated count is strictly smaller when some member
satisfies the larger predicate but not the smaller. -/
theorem countP_lt_of_mem {α : Type} {l : List α} {p q : α → Bool} {a : α}
    (hmono : ∀ x ∈ l, q x = true → p x = true)
    (ha : a ∈ l) (hpa : p a = true) (hqa : q a = false) :
    l.countP q < l.countP p := by
  induction l with
  | nil => cases ha
  | cons b bs ih =>
      rw [List.countP_cons, List.countP_cons]
      rcases List.mem_cons.mp ha with rfl | ha'
      · have hle : bs.countP q ≤ bs.countP p :=
          List.countP_mono_left fun x hx => hmono x (List.mem_cons_of_mem _ hx)
        rw [hpa, hqa]
        simp
        omega
      · have hb : (if q b = true then 1 else 0) ≤ (if p b = true then 1 else 0) := by
          by_cases hq : q b = true
          · rw [if_pos hq, if_pos (hmono b (List.mem_cons_self _ _) hq)]
          · rw [if_neg hq]
            exact Nat.zero_le _
        have hlt := ih (fun x hx h => hmono x (List.mem_cons_of_mem _ hx) h) ha'
        exact Nat.add_lt_add_of_lt_of_le hlt hb

/-- One pass over a nonempty selection strictly shrinks the eligible set,
provided every attempted fetch resolves. -/
theorem enrichPass_eligible_lt (encode : String → Vec) (http : String → HttpResult)
    (db : DB) (hne : get_null_rows db BATCH_SIZE ≠ [])
    (hres : ∀ r ∈ db, eligible r = true →
      fetch_tweet_details http r.tweet_url ≠ none) :
    (enrichPass encode http db).countP eligible < db.countP eligible := by
  rw [enrichPass, enrichPass_eq_map, List.countP_map]
  obtain ⟨p0, hp0⟩ := List.exists_mem_of_ne_nil _ hne
  obtain ⟨s, hsdb, hsid, hsurl, helig⟩ := get_null_rows_source hp0
  refine countP_lt_of_mem
    (fun x _ hx => eligible_foldl_gStep encode http _ hx) hsdb helig ?_
  apply Bool.eq_false_iff.mpr
  intro habs
  exact foldl_gStep_hits encode http hp0 hsid
    (by rw [← hsurl]; exact hres s hsdb helig) (eligible_text_none habs)

theorem enrich_terminates_aux (encode : String → Vec) (http : String → HttpResult) :
    ∀ (k : Nat) (db : DB), db.countP eligible ≤ k →
      (∀ r ∈ db, eligible r = true →
        fetch_tweet_details http r.tweet_url ≠ none) →
      ∃ n ≤ k, get_null_rows ((enrichPass encode http)^[n] db) BATCH_SIZE = [] := by
  intro k
  induction k with
  | zero =>
      intro db hc _
      refine ⟨0, le_refl 0, ?_⟩
      have h0 : db.countP eligible = 0 := Nat.le_zero.mp hc
      rw [List.countP_eq_length_filter] at h0
      have hnil : db.filter eligible = [] := List.eq_nil_of_length_eq_zero h0
      simp [get_null_rows, hnil]
  | succ k ih =>
      intro db hc hres
      by_cases hne : get_null_rows db BATCH_SIZE = []
      · exact ⟨0, Nat.zero_le _, hne⟩
      · have hlt := enrichPass_eligible_lt encode http db hne hres
        have hres' : ∀ r ∈ enrichPass encode http db, eligible r = true →
            fetch_tweet_details http r.tweet_url ≠ none := by
          intro r hr he
          rw [enrichPass, enrichPass_eq_map] at hr
          obtain ⟨t, htm, rfl⟩ := List.mem_map.mp hr
          rw [foldl_gStep_url]
          exact hres t htm (eligible_foldl_gStep encode http _ he)
        have hk : (enrichPass encode http db).countP eligible ≤ k := by omega
        obtain ⟨n, hn, hempty⟩ := ih (enrichPass encode http db) hk hres'
        refine ⟨n + 1, Nat.succ_le_succ hn, ?_⟩
        rw [Function.iterate_succ_apply]
        exact hempty

/-- C9: when every attempt on an eligible record resolves (the fetch never
errors out), the enrichment loop reaches, within at most one pass per
initially eligible record, a state whose work-selection query returns zero
records — and on any state with an empty selection a pass is the identity,
so the `while True` loop's `if not rows: break` fires exactly there. -/
theorem enrichment_fixed_point (encode : String → Vec) (http : String → HttpResult)
    (db : DB)
    (hres : ∀ r ∈ db, eligible r = true →
      fetch_tweet_details http r.tweet_url ≠ none) :
    (∃ n ≤ db.countP eligible,
       get_null_rows ((enrichPass encode http)^[n] db) BATCH_SIZE = []) ∧
    (∀ d : DB, get_null_rows d BATCH_SIZE = [] → enrichPass encode http d = d) := by
  refine ⟨enrich_terminates_aux encode http _ db (le_refl _) hres, ?_⟩
  intro d hd
  rw [enrichPass, hd]
  rfl

/-- Fixture table and network for the C9 witness: one eligible row whose
tweet has been deleted (the API answers 404 everywhere). -/
def c9Db : DB := [⟨1, 5, "https://twitter.com/i/web/status/5", none, none, none, "n", []⟩]

/-- Fixture network answering 404 to every request. -/
def http9 : String → HttpResult := fun _ => .notFound

/-- Concrete instantiation of C9. -/
theorem enrichment_fixed_point_witness :
    (∀ r ∈ c9Db, eligible r = true →
      fetch_tweet_details http9 r.tweet_url ≠ none) ∧
    ((∃ n ≤ c9Db.countP eligible,
        get_null_rows ((enrichPass enc0 http9)^[n] c9Db) BATCH_SIZE = []) ∧
     (∀ d : DB, get_null_rows d BATCH_SIZE = [] → enrichPass enc0 http9 d = d)) :=
  ⟨by decide, enrichment_fixed_point enc0 http9 c9Db (by decide)⟩

end TruthEngine
